import Mathlib

/-!
Verification development for the BlockSuite store layer
(`@blocksuite/store`, version 0.4.0-alpha.0).

The definitions below are a shallow embedding of the TypeScript sources:
`workspace.ts` (class `WorkspaceMeta`, class `Workspace`), `page.ts`
(class `Page`) and `space.ts` (class `Space`).  Replicated Yjs containers
are modelled as association lists; `doc.transact` is modelled as an atomic
state update that increments a counter of `transact()` invocations;
a thrown JavaScript exception is modelled by returning the state reached at
the throw point together with `some` error, so that partial mutation before
a throw is observable.  Yjs fires deep-observe callbacks synchronously once
a transaction commits, so each mutator applies the reconciliation handlers
for exactly the change events its transaction generates.
-/

namespace BlockSuite

/-! ## Association-list helpers (model of `Y.Map` / JS `Map`) -/

/-- First-match lookup, the behaviour of `Map.get` on a map whose keys are
unique (all maps in the store keep unique keys). -/
def lookupA {α : Type} (m : List (String × α)) (k : String) : Option α :=
  (m.find? (fun p => p.1 = k)).map (fun p => p.2)

/-- `Map.set`: replace the value at an existing key in place, otherwise
append the new entry at the end (JS `Map` insertion order). -/
def setA {α : Type} (m : List (String × α)) (k : String) (v : α) :
    List (String × α) :=
  match m with
  | [] => [(k, v)]
  | (k1, v1) :: rest =>
    if k1 = k then (k, v) :: rest else (k1, v1) :: setA rest k v

/-- `Map.delete`: remove the entry with the given key. -/
def deleteKey {α : Type} (m : List (String × α)) (k : String) :
    List (String × α) :=
  m.filter (fun p => ¬ p.1 = k)

/-- `Y.Array.insert(i, [x])` for `i ≤ length` (Yjs throws beyond the end). -/
def insertAt {α : Type} (l : List α) (i : Nat) (x : α) : List α :=
  l.take i ++ x :: l.drop i

/-- `Y.Array.delete(i, 1)`. -/
def deleteAt {α : Type} (l : List α) (i : Nat) : List α :=
  l.take i ++ l.drop (i + 1)

@[simp] theorem lookupA_nil {α : Type} (k : String) :
    lookupA ([] : List (String × α)) k = none := rfl

theorem lookupA_cons {α : Type} (k1 k : String) (v1 : α) (rest : List (String × α)) :
    lookupA ((k1, v1) :: rest) k = if k1 = k then some v1 else lookupA rest k := by
  by_cases h : k1 = k <;> simp [lookupA, List.find?, h]

theorem lookupA_setA_self {α : Type} (m : List (String × α)) (k : String) (v : α) :
    lookupA (setA m k v) k = some v := by
  induction m with
  | nil => simp [setA, lookupA]
  | cons p rest ih =>
    obtain ⟨k1, v1⟩ := p
    by_cases h : k1 = k <;> simp [setA, h, lookupA_cons, ih]

theorem lookupA_setA_ne {α : Type} (m : List (String × α)) (k k' : String) (v : α)
    (h : k' ≠ k) : lookupA (setA m k v) k' = lookupA m k' := by
  have hk : k ≠ k' := fun hh => h hh.symm
  induction m with
  | nil => simp [setA, lookupA_cons, hk, lookupA]
  | cons p rest ih =>
    obtain ⟨k1, v1⟩ := p
    by_cases h1 : k1 = k
    · subst h1
      simp [setA, lookupA_cons, hk]
    · simp [setA, h1, lookupA_cons, ih]

theorem deleteKey_cons {α : Type} (k1 k : String) (v1 : α) (rest : List (String × α)) :
    deleteKey ((k1, v1) :: rest) k =
      if k1 = k then deleteKey rest k else (k1, v1) :: deleteKey rest k := by
  by_cases h : k1 = k <;> simp [deleteKey, h]

theorem lookupA_deleteKey_self {α : Type} (m : List (String × α)) (k : String) :
    lookupA (deleteKey m k) k = none := by
  induction m with
  | nil => rfl
  | cons p rest ih =>
    obtain ⟨k1, v1⟩ := p
    by_cases h : k1 = k <;> simp [deleteKey_cons, h, lookupA_cons, ih]

theorem lookupA_deleteKey_ne {α : Type} (m : List (String × α)) (k k' : String)
    (h : k' ≠ k) : lookupA (deleteKey m k) k' = lookupA m k' := by
  induction m with
  | nil => rfl
  | cons p rest ih =>
    obtain ⟨k1, v1⟩ := p
    by_cases h1 : k1 = k
    · subst h1
      have hk : k1 ≠ k' := fun hh => h hh.symm
      simp [deleteKey_cons, lookupA_cons, hk, ih]
    · simp [deleteKey_cons, h1, lookupA_cons, ih]

/-! ## Data model -/

/-- JSON-serializable scalar block property values (`BlockProps`). -/
inductive PropValue : Type
  | str (s : String)
  | num (n : Int)
  | bool (b : Bool)
deriving DecidableEq, Repr

/-- A raw replicated block: one `YBlock = Y.Map<unknown>` of the flat
`_yBlocks` store.  `sys:id`, `sys:flavour` and `sys:children` are kept as
fields; `prop:<name>` entries are kept unprefixed in `props`. -/
structure YBlock : Type where
  sysId : String
  sysFlavour : String
  sysChildren : List String
  props : List (String × PropValue)
deriving DecidableEq, Repr

/-- A registered block-model constructor (an entry of
`Workspace.flavourMap : Map<string, typeof BaseBlockModel>`): a constructor
identity plus its schema `version`. -/
structure Ctor : Type where
  name : String
  version : Nat
deriving DecidableEq, Repr

/-- The typed in-memory projection of one block (a `BaseBlockModel`
instance held in `Page._blockMap`).  `children` holds the ids of the child
models (the TS code stores object references; ids are their identity) and
`childMap` is the id→index map rebuilt from `sys:children`. -/
structure BlockModel : Type where
  id : String
  flavour : String
  ctor : Ctor
  props : List (String × PropValue)
  children : List String
  childMap : List (String × Nat)
deriving DecidableEq, Repr

/-- `createChildMap(yChildIds)`: `new Map(yChildIds.map((c, i) => [c, i]))`. -/
def createChildMap (l : List String) : List (String × Nat) :=
  l.enum.map (fun p => (p.2, p.1))

/-- A page descriptor held in the workspace metadata (`PageMeta`). -/
structure PageMeta : Type where
  id : String
  title : String
  createDate : Nat
deriving DecidableEq, Repr

/-- The four version-validation failures of
`WorkspaceMeta.validateVersion` (spec taxonomy: ConfigurationError,
SchemaMissingError, SchemaTooNewError, SchemaStaleError). -/
inductive VersionError : Type
  | configurationError
  | schemaMissing (flavour : String)
  | schemaTooNew (flavour : String) (dataVersion : Nat)
  | schemaStale (flavour : String) (dataVersion : Nat)
deriving DecidableEq, Repr

/-- Errors thrown by the store layer (each constructor corresponds to one
`throw new Error(...)` site, plus the CRDT-primitive failure
`invalidIndex` for out-of-range `Y.Array` operations and the embedding
artifact `outOfFuel` for the fuel-bounded recursion). -/
inductive Err : Type
  | stateError
  | readOnly
  | missingFlavour
  | notRegistered (flavour : String)
  | noBlockId
  | blockMissing (id : String)
  | parentNotFound
  | pageExists
  | structural
  | invalidIndex
  | outOfFuel
  | version (e : VersionError)
deriving DecidableEq, Repr

/-! ## Workspace state -/

/-- State of a `Workspace` together with its `WorkspaceMeta` space.
`flavourMap` is the schema registry; `metaPages` and `metaVersions` are the
`pages` and `versions` fields of the `space:meta` container; `spaces` is
the set of registered page-store ids (`Store.spaces` keys, each of the form
`"space:" ++ pageId`); `prevPages` is `WorkspaceMeta._prevPages`.
`childrenRule` stands for the flavour-specific constraint checked by
`assertValidChildren` (see that definition). -/
structure WorkspaceState : Type where
  flavourMap : List (String × Ctor)
  metaPages : List PageMeta
  metaVersions : List (String × Nat)
  spaces : List String
  prevPages : List String
  childrenRule : String → List (String × PropValue) → Bool

/-! ## Version ledger (claim C1 code: `WorkspaceMeta.validateVersion`) -/

/-- `workspace.flavourMap.get(dataFlavour)?.version`. -/
def lookupVersion (reg : List (String × Ctor)) (f : String) : Option Nat :=
  (lookupA reg f).map (fun c => c.version)

/-- The `dataFlavours.forEach` loop of `validateVersion`, which throws at
the first offending ledger entry.  The guard `if (!editorVersion)` in the
source is a JS falsy test: it selects both a missing registry entry
(`undefined`) and a registry version equal to `0`. -/
def validateFlavours (reg : List (String × Ctor)) :
    List (String × Nat) → Option VersionError
  | [] => none
  | (f, dv) :: rest =>
    match lookupVersion reg f with
    | none => some (.schemaMissing f)
    | some ev =>
      if ev = 0 then some (.schemaMissing f)
      else if ev < dv then some (.schemaTooNew f dv)
      else if dv < ev then some (.schemaStale f dv)
      else validateFlavours reg rest

/-- `WorkspaceMeta.validateVersion`: `reg` is the workspace flavour
registry, `ledger` the document `versions` field (`Y.Map` as an ordered
association list with unique keys). -/
def validateVersion (reg : List (String × Ctor)) (ledger : List (String × Nat)) :
    Option VersionError :=
  if ledger.isEmpty then some .configurationError
  else validateFlavours reg ledger

/-- `WorkspaceMeta.writeVersion`: stamp the ledger with every registered
flavour version (runs on a brand-new document). -/
def writeVersion (reg : List (String × Ctor)) (ledger : List (String × Nat)) :
    List (String × Nat) :=
  reg.foldl (fun acc p => setA acc p.1 p.2.version) ledger

theorem validateFlavours_ne_config (reg : List (String × Ctor))
    (L : List (String × Nat)) :
    validateFlavours reg L ≠ some .configurationError := by
  induction L with
  | nil => simp [validateFlavours]
  | cons p rest ih =>
    obtain ⟨f, dv⟩ := p
    cases h : lookupVersion reg f with
    | none => simp [validateFlavours, h]
    | some ev =>
      by_cases h0 : ev = 0
      · simp [validateFlavours, h, h0]
      · by_cases h1 : ev < dv
        · simp [validateFlavours, h, h0, h1]
        · by_cases h2 : dv < ev
          · simp [validateFlavours, h, h0, h1, h2]
          · simpa [validateFlavours, h, h0, h1, h2] using ih

theorem validateFlavours_eq_none_iff (reg : List (String × Ctor))
    (L : List (String × Nat)) :
    validateFlavours reg L = none ↔
      ∀ p ∈ L, ∃ ev, lookupVersion reg p.1 = some ev ∧ ev ≠ 0 ∧ p.2 = ev := by
  induction L with
  | nil => simp [validateFlavours]
  | cons p rest ih =>
    obtain ⟨f, dv⟩ := p
    rw [List.forall_mem_cons]
    cases h : lookupVersion reg f with
    | none =>
      simp only [validateFlavours, h]
      constructor
      · intro hc; cases hc
      · rintro ⟨⟨ev, hev, -, -⟩, -⟩
        simp at hev
    | some ev =>
      simp only [validateFlavours, h]
      by_cases h0 : ev = 0
      · subst h0
        rw [if_pos rfl]
        constructor
        · intro hc; cases hc
        · rintro ⟨⟨ev1, hev1, hne, -⟩, -⟩
          have hz : (0 : Nat) = ev1 := by simpa using hev1
          exact absurd hz.symm hne
      · rw [if_neg h0]
        by_cases h1 : ev < dv
        · rw [if_pos h1]
          constructor
          · intro hc; cases hc
          · rintro ⟨⟨ev1, hev1, -, hdv⟩, -⟩
            have hz : ev = ev1 := by simpa using hev1
            omega
        · rw [if_neg h1]
          by_cases h2 : dv < ev
          · rw [if_pos h2]
            constructor
            · intro hc; cases hc
            · rintro ⟨⟨ev1, hev1, -, hdv⟩, -⟩
              have hz : ev = ev1 := by simpa using hev1
              omega
          · rw [if_neg h2, ih]
            constructor
            · intro hrest
              exact ⟨⟨ev, rfl, h0, by omega⟩, hrest⟩
            · rintro ⟨-, hrest⟩; exact hrest

theorem validateFlavours_missing (reg : List (String × Ctor))
    (L : List (String × Nat)) (f : String)
    (h : validateFlavours reg L = some (.schemaMissing f)) :
    (∃ dv, (f, dv) ∈ L) ∧
      (lookupVersion reg f = none ∨ lookupVersion reg f = some 0) := by
  induction L with
  | nil => simp [validateFlavours] at h
  | cons p rest ih =>
    obtain ⟨g, dv⟩ := p
    cases hg : lookupVersion reg g with
    | none =>
      simp only [validateFlavours, hg] at h
      cases h
      exact ⟨⟨dv, List.mem_cons_self _ _⟩, Or.inl hg⟩
    | some ev =>
      simp only [validateFlavours, hg] at h
      by_cases h0 : ev = 0
      · subst h0
        rw [if_pos rfl] at h
        cases h
        exact ⟨⟨dv, List.mem_cons_self _ _⟩, Or.inr hg⟩
      · rw [if_neg h0] at h
        by_cases h1 : ev < dv
        · rw [if_pos h1] at h; cases h
        · rw [if_neg h1] at h
          by_cases h2 : dv < ev
          · rw [if_pos h2] at h; cases h
          · rw [if_neg h2] at h
            obtain ⟨⟨dv1, hmem⟩, hlook⟩ := ih h
            exact ⟨⟨dv1, List.mem_cons_of_mem _ hmem⟩, hlook⟩

theorem validateFlavours_tooNew (reg : List (String × Ctor))
    (L : List (String × Nat)) (f : String) (dv : Nat)
    (h : validateFlavours reg L = some (.schemaTooNew f dv)) :
    (f, dv) ∈ L ∧ ∃ ev, lookupVersion reg f = some ev ∧ ev ≠ 0 ∧ ev < dv := by
  induction L with
  | nil => simp [validateFlavours] at h
  | cons p rest ih =>
    obtain ⟨g, gv⟩ := p
    cases hg : lookupVersion reg g with
    | none => simp only [validateFlavours, hg] at h; cases h
    | some ev =>
      simp only [validateFlavours, hg] at h
      by_cases h0 : ev = 0
      · subst h0; rw [if_pos rfl] at h; cases h
      · rw [if_neg h0] at h
        by_cases h1 : ev < gv
        · rw [if_pos h1] at h
          cases h
          exact ⟨List.mem_cons_self _ _, ev, hg, h0, h1⟩
        · rw [if_neg h1] at h
          by_cases h2 : gv < ev
          · rw [if_pos h2] at h; cases h
          · rw [if_neg h2] at h
            obtain ⟨hmem, hrest⟩ := ih h
            exact ⟨List.mem_cons_of_mem _ hmem, hrest⟩

theorem validateFlavours_stale (reg : List (String × Ctor))
    (L : List (String × Nat)) (f : String) (dv : Nat)
    (h : validateFlavours reg L = some (.schemaStale f dv)) :
    (f, dv) ∈ L ∧ ∃ ev, lookupVersion reg f = some ev ∧ dv < ev := by
  induction L with
  | nil => simp [validateFlavours] at h
  | cons p rest ih =>
    obtain ⟨g, gv⟩ := p
    cases hg : lookupVersion reg g with
    | none => simp only [validateFlavours, hg] at h; cases h
    | some ev =>
      simp only [validateFlavours, hg] at h
      by_cases h0 : ev = 0
      · subst h0; rw [if_pos rfl] at h; cases h
      · rw [if_neg h0] at h
        by_cases h1 : ev < gv
        · rw [if_pos h1] at h; cases h
        · rw [if_neg h1] at h
          by_cases h2 : gv < ev
          · rw [if_pos h2] at h
            cases h
            exact ⟨List.mem_cons_self _ _, ev, hg, h2⟩
          · rw [if_neg h2] at h
            obtain ⟨hmem, hrest⟩ := ih h
            exact ⟨List.mem_cons_of_mem _ hmem, hrest⟩

/-- Claim C1 (amended).  `validateVersion` produces exactly one outcome per
call (it is a function): a ConfigurationError exactly when the ledger is
empty; silent success exactly when the ledger is non-empty and every ledger
flavour has a registry entry whose version is non-zero and equal to the
ledger version; a SchemaMissingError only for a ledger flavour that has no
registry entry or whose registry version is `0` (the source guard
`if (!editorVersion)` is a JS falsy test, so version `0` is treated as a
missing registration — this is the one amendment to the claim); a
SchemaTooNewError only when the ledger version exceeds a non-zero registry
version; and a SchemaStaleError only when the ledger version is below the
registry version. -/
theorem C1_validateVersion_characterization (reg : List (String × Ctor))
    (ledger : List (String × Nat)) :
    (validateVersion reg ledger = some .configurationError ↔ ledger = []) ∧
    (validateVersion reg ledger = none ↔ ledger ≠ [] ∧
      ∀ p ∈ ledger, ∃ ev, lookupVersion reg p.1 = some ev ∧ ev ≠ 0 ∧ p.2 = ev) ∧
    (∀ f, validateVersion reg ledger = some (.schemaMissing f) →
      (∃ dv, (f, dv) ∈ ledger) ∧
        (lookupVersion reg f = none ∨ lookupVersion reg f = some 0)) ∧
    (∀ f dv, validateVersion reg ledger = some (.schemaTooNew f dv) →
      (f, dv) ∈ ledger ∧ ∃ ev, lookupVersion reg f = some ev ∧ ev ≠ 0 ∧ ev < dv) ∧
    (∀ f dv, validateVersion reg ledger = some (.schemaStale f dv) →
      (f, dv) ∈ ledger ∧ ∃ ev, lookupVersion reg f = some ev ∧ dv < ev) := by
  cases ledger with
  | nil =>
    refine ⟨by simp [validateVersion], by simp [validateVersion], ?_, ?_, ?_⟩ <;>
      intro f <;> simp [validateVersion]
  | cons p rest =>
    have hne : ¬ (List.isEmpty (p :: rest)) := by simp
    constructor
    · simp only [validateVersion, if_neg hne]
      constructor
      · intro h; exact absurd h (validateFlavours_ne_config reg (p :: rest))
      · intro h; cases h
    constructor
    · simp only [validateVersion, if_neg hne]
      rw [validateFlavours_eq_none_iff]
      simp
    refine ⟨?_, ?_, ?_⟩
    · intro f h
      rw [validateVersion, if_neg hne] at h
      exact validateFlavours_missing reg (p :: rest) f h
    · intro f dv h
      rw [validateVersion, if_neg hne] at h
      exact validateFlavours_tooNew reg (p :: rest) f dv h
    · intro f dv h
      rw [validateVersion, if_neg hne] at h
      exact validateFlavours_stale reg (p :: rest) f dv h

/-- A registry whose only entry has version `0`, matching a ledger entry
with version `0`. -/
def regZero : List (String × Ctor) := [("x", ⟨"XModel", 0⟩)]

/-- The version ledger of a document written against `regZero`. -/
def ledgerZero : List (String × Nat) := [("x", 0)]

/-- Claim C1 as stated is false on the code: for this workspace the ledger
is non-empty, its only flavour `x` does have a registry entry, and the
ledger version `0` is neither greater than nor less than the registry
version `0`, so the claim requires silent success — but `validateVersion`
fails (with the missing-schema error), because the source tests
`if (!editorVersion)` and `0` is falsy in JavaScript. -/
theorem C1_counterexample :
    ledgerZero ≠ [] ∧
    lookupVersion regZero "x" = some 0 ∧
    (∀ p ∈ ledgerZero, p.1 = "x" ∧ p.2 = 0) ∧
    validateVersion regZero ledgerZero = some (VersionError.schemaMissing "x") := by
  decide

/-- A one-flavour registry at version 1. -/
def regOne : List (String × Ctor) := [("affine:page", ⟨"PageBlockModel", 1⟩)]

/-- A ledger matching `regOne`. -/
def ledgerOne : List (String × Nat) := [("affine:page", 1)]

/-- Witness for `C1_validateVersion_characterization` at a concrete
registry and ledger: the matching ledger validates silently. -/
theorem C1_witness : validateVersion regOne ledgerOne = none :=
  (C1_validateVersion_characterization regOne ledgerOne).2.1.mpr
    ⟨by decide, by
      intro p hp
      have hp1 : p = ("affine:page", 1) := by
        simpa [ledgerOne] using hp
      subst hp1
      exact ⟨1, by decide, by decide, rfl⟩⟩

/-! ## Page state (`Page extends Space<PageData>`) -/

/-- State of one `Page` block-tree store.  `yBlocks` is the replicated
flat id→fields map (`Page._yBlocks`), `blockMap` the typed model cache
(`Page._blockMap`), `rootId`/`surfaceId` the two slots of `Page._root`,
`synced` the `_synced` flag, `readonly` the value of the caller-external
predicate `awarenessAdapter.isReadonly(this)` (the awareness adapter is an
external collaborator; the store only branches on the boolean), `idGen`
with `idCounter` the injected `IdGenerator`, `txnCount` the number of
`transact()` invocations performed so far, and `log` the `console.error`
output.  `histUndo`/`histRedo` are modelled from the spec: the undo/redo
history manager (`Y.UndoManager`) is an external collaborator (§4.3), kept
abstract as functions on the replicated map. -/
structure PageState : Type where
  yBlocks : List (String × YBlock)
  blockMap : List (String × BlockModel)
  rootId : Option String
  surfaceId : Option String
  synced : Bool
  readonly : Bool
  idGen : Nat → String
  idCounter : Nat
  txnCount : Nat
  log : List String
  histUndo : List (String × YBlock) → List (String × YBlock)
  histRedo : List (String × YBlock) → List (String × YBlock)

/-- The message printed by every non-throwing mutator in readonly mode. -/
def readonlyMsg : String := "cannot modify data in readonly mode"

/-- `Page.getBlockById`: `this._blockMap.get(id) ?? null`. -/
def getBlockById (s : PageState) (id : String) : Option BlockModel :=
  lookupA s.blockMap id

/-- `Page.getParentById`, made total with a fuel argument: the source
recursion is unbounded and diverges on a cyclic `childMap` graph; with
fuel at least the depth of the (acyclic) tree the two agree.  Walks the
`childMap` entries of the candidate root in order; returns the id of the
first block whose child list contains the target. -/
def getParentFuel (blockMap : List (String × BlockModel)) :
    Nat → String → String → Option String
  | 0, _, _ => none
  | fuel + 1, rootId, targetId =>
    if rootId = targetId then none
    else
      match lookupA blockMap rootId with
      | none => none
      | some root =>
        (root.childMap.map (fun p => p.1)).findSome? (fun childId =>
          if childId = targetId then some rootId
          else getParentFuel blockMap fuel childId targetId)

/-- `Page.getParent`: search from the root model. -/
def getParent (s : PageState) (targetId : String) : Option String :=
  match s.rootId with
  | none => none
  | some rid => getParentFuel s.blockMap (s.blockMap.length + 1) rid targetId

/-- Reconciliation of a change event on some block's `sys:children` array
(`Page._handleYEvent`, nested-sequence branch, and the `sys:children` case
of `_handleYBlockUpdate`): rebuild the model's `children` and `childMap`
from the replicated list. -/
def handleChildrenUpdate (s : PageState) (pid : String) : PageState :=
  match lookupA s.yBlocks pid, lookupA s.blockMap pid with
  | some yb, some pm =>
    let pm1 := { pm with children := yb.sysChildren,
                         childMap := createChildMap yb.sysChildren }
    { s with blockMap := setA s.blockMap pid pm1 }
  | _, _ => s

/-- `Page._handleYBlockDelete`: drop the model from the cache.  (The
source emits `rootDeleted` when the deleted model is the root but does not
clear `_root` itself.) -/
def handleYBlockDelete (s : PageState) (id : String) : PageState :=
  { s with blockMap := deleteKey s.blockMap id }

mutual
/-- `Page._handleYBlockAdd`: materialize the typed model for one id of the
flat map, recursively materializing listed children first.  Mirrors the
source order: read the raw block (throw if absent), record whether the
model cache is still empty (`isRoot`), construct the model via
`_createBlockModel` (throw if the flavour is unregistered or the id
empty), insert it into the cache, default-initialize `prop:text` for the
three rich-text flavours inside its own `transact` call, rebuild
`childMap`, recurse into children not yet materialized, fill the model's
`children`, and finally assign the root or auxiliary-surface slot.  The
final parent-attachment step of the source (`parent.children[index] =
model`) rewrites a child reference that the id-based model of `children`
already holds, so it has no further effect here.  `toBlockProps` (in
`utils/utils.js`, not among the sources) is modelled from the spec as
passing the `prop:*` fields through unprefixed. -/
def handleYBlockAdd (w : WorkspaceState) (fuel : Nat) (s : PageState)
    (visited : List String) (id : String) :
    (PageState × List String) × Option Err :=
  match fuel with
  | 0 => ((s, visited), some .outOfFuel)
  | fuel + 1 =>
    match lookupA s.yBlocks id with
    | none => ((s, visited), some (.blockMissing id))
    | some yb =>
      let isRoot := s.blockMap.isEmpty
      let isSurface := yb.sysFlavour = "affine:surface"
      match lookupA w.flavourMap yb.sysFlavour with
      | none => ((s, visited), some (.notRegistered yb.sysFlavour))
      | some ctor =>
        if id = "" then ((s, visited), some .noBlockId)
        else
          let model0 : BlockModel :=
            { id := id, flavour := yb.sysFlavour, ctor := ctor,
              props := yb.props, children := [], childMap := [] }
          let s1 := { s with blockMap := setA s.blockMap id model0 }
          let st :=
            if (yb.sysFlavour = "affine:paragraph" ∨ yb.sysFlavour = "affine:list"
                ∨ yb.sysFlavour = "affine:code") ∧ lookupA yb.props "text" = none then
              let yb1 := { yb with props := setA yb.props "text" (.str "") }
              ({ s1 with txnCount := s1.txnCount + 1,
                         yBlocks := setA s1.yBlocks id yb1 }, yb1)
            else (s1, yb)
          let s2 := st.1
          let yb2 := st.2
          let model1 := { model0 with childMap := createChildMap yb2.sysChildren }
          let s3 := { s2 with blockMap := setA s2.blockMap id model1 }
          match addChildrenLoop w fuel s3 visited yb2.sysChildren with
          | ((s4, v4), some e) => ((s4, v4), some e)
          | ((s4, v4), none) =>
            let model2 := { model0 with
              childMap := createChildMap yb2.sysChildren,
              children := yb2.sysChildren }
            let s5 := { s4 with blockMap := setA s4.blockMap id model2 }
            if isRoot then (({ s5 with rootId := some id }, v4), none)
            else if isSurface then (({ s5 with surfaceId := some id }, v4), none)
            else ((s5, v4), none)
termination_by (fuel, 0, 0)

/-- The `yChildren.forEach` recursion inside `_handleYBlockAdd`: visit each
listed child id in order, materializing the ones not yet present in the
model cache (`hasChild` test), propagating the first error. -/
def addChildrenLoop (w : WorkspaceState) (fuel : Nat) (s : PageState)
    (visited : List String) (ids : List String) :
    (PageState × List String) × Option Err :=
  match ids with
  | [] => ((s, visited), none)
  | cid :: rest =>
    if (lookupA s.blockMap cid).isSome then addChildrenLoop w fuel s visited rest
    else
      match handleYBlockAdd w fuel s (visited ++ [cid]) cid with
      | ((s1, v1), none) => addChildrenLoop w fuel s1 v1 rest
      | r => r
termination_by (fuel, 1, ids.length)
end

/-- The `parent` argument of `addBlock`:
`BaseBlockModel | string | null | undefined`. -/
inductive ParentArg : Type
  | undef
  | null
  | byModel (id : String)
  | byId (id : String)
deriving DecidableEq, Repr

/-- The parent-resolution step of `addBlockByFlavour`: a string argument is
looked up in the model cache (an unknown string degrades to `undefined`),
`null` means "no parent", and an absent argument defaults to the root. -/
def resolveParentId (s : PageState) (parent : ParentArg) : Option String :=
  match parent with
  | .undef => s.rootId
  | .null => none
  | .byModel pid => some pid
  | .byId pid =>
    match lookupA s.blockMap pid with
    | some m => some m.id
    | none => s.rootId

/-- Modelled from the spec: `assertValidChildren` (in `utils/utils.js`, not
among the sources) validates flavour-specific parent/children constraints
(for example "this flavour may only be a child of the root", §4.3).  The
concrete rule table is not part of the sources, so the check is kept
abstract as the `childrenRule` predicate carried by the workspace. -/
def assertValidChildren (w : WorkspaceState) (flavour : String)
    (props : List (String × PropValue)) : Bool :=
  w.childrenRule flavour props

/-- `Page.addBlockByFlavour` (the deprecated public `addBlock` merely
delegates here).  `initInternalProps` and `syncBlockProps` (in
`utils/utils.js`, not among the sources) are modelled from the spec:
the former writes `sys:id`, `sys:flavour` and an empty `sys:children`,
the latter writes one `prop:<name>` field per given property (the
ignored base-model keys are not part of `props` in this embedding).
After the transaction commits, the deep observer fires synchronously with
the two events the transaction generated: the splice of the parent's
`sys:children` and the add on the top-level map. -/
def addBlockByFlavour (w : WorkspaceState) (s : PageState) (flavour : String)
    (props : List (String × PropValue)) (parent : ParentArg)
    (parentIndex : Option Nat) :
    (PageState × Option String) × Option Err :=
  if s.readonly then ((s, none), some .readOnly)
  else if flavour = "" then ((s, none), some .missingFlavour)
  else
    let id := s.idGen s.idCounter
    let s1 := { s with idCounter := s.idCounter + 1 }
    let s2 := { s1 with txnCount := s1.txnCount + 1 }
    if ¬ assertValidChildren w flavour props then ((s2, none), some .structural)
    else
      let yBlock : YBlock :=
        { sysId := id, sysFlavour := flavour, sysChildren := [], props := props }
      match resolveParentId s2 parent with
      | none =>
        let s3 := { s2 with yBlocks := setA s2.yBlocks id yBlock }
        match handleYBlockAdd w (s3.yBlocks.length + 1) s3 [id] id with
        | ((s4, _), some e) => ((s4, none), some e)
        | ((s4, _), none) => ((s4, some id), none)
      | some pid =>
        match lookupA s2.yBlocks pid with
        | none => ((s2, none), some (.blockMissing pid))
        | some yp =>
          let index := parentIndex.getD yp.sysChildren.length
          if yp.sysChildren.length < index then ((s2, none), some .invalidIndex)
          else
            let yp1 := { yp with sysChildren := insertAt yp.sysChildren index id }
            let s3 := { s2 with yBlocks := setA (setA s2.yBlocks pid yp1) id yBlock }
            let s4 := handleChildrenUpdate s3 pid
            match handleYBlockAdd w (s4.yBlocks.length + 1) s4 [id] id with
            | ((s5, _), some e) => ((s5, none), some e)
            | ((s5, _), none) => ((s5, some id), none)

/-- `Page.updateBlock`.  `childrenRepl` models the optional `children`
field of the partial props (a full replacement of the ordered child list);
the rich-text `PrelimText` bookkeeping has no replicated effect and is
omitted.  After the commit, `_handleYBlockUpdate` refreshes the model: its
per-changed-key assignment leaves the model's properties equal to the
replicated ones, which is how it is stated here. -/
def updateBlock (s : PageState) (mId : String)
    (props : List (String × PropValue)) (childrenRepl : Option (List String)) :
    PageState × Option Err :=
  if s.readonly then ({ s with log := s.log ++ [readonlyMsg] }, none)
  else
    let s1 := { s with txnCount := s.txnCount + 1 }
    match lookupA s1.yBlocks mId with
    | none => (s1, some (.blockMissing mId))
    | some yb =>
      let yb1 := match childrenRepl with
        | some cs => { yb with sysChildren := cs }
        | none => yb
      let yb2 := { yb1 with
        props := props.foldl (fun ps p => setA ps p.1 p.2) yb1.props }
      let s2 := { s1 with yBlocks := setA s1.yBlocks mId yb2 }
      let s3 := match lookupA s2.blockMap mId with
        | none => s2
        | some m =>
          let m1 := match childrenRepl with
            | some cs => { m with children := cs, childMap := createChildMap cs }
            | none => m
          { s2 with blockMap := setA s2.blockMap mId { m1 with props := yb2.props } }
      (s3, none)

/-- `Page.updateBlockById`: readonly guard, then lookup and update. -/
def updateBlockById (s : PageState) (id : String)
    (props : List (String × PropValue)) (childrenRepl : Option (List String)) :
    PageState × Option Err :=
  if s.readonly then ({ s with log := s.log ++ [readonlyMsg] }, none)
  else updateBlock s id props childrenRepl

/-- `Page.moveBlock(model, targetModel, top)`: remove the id from the
current parent's replicated child list, then insert it adjacent to the
target in the (possibly updated) new parent's list, all in one `transact`;
the deep observer then refreshes both parents' model children. -/
def moveBlock (s : PageState) (bId tId : String) (top : Bool) :
    PageState × Option Err :=
  if s.readonly then ({ s with log := s.log ++ [readonlyMsg] }, none)
  else
    match getParent s bId, getParent s tId with
    | some pA, some pB =>
      let s1 := { s with txnCount := s.txnCount + 1 }
      match lookupA s1.yBlocks pA with
      | none => (s1, some (.blockMissing pA))
      | some ypA =>
        match ypA.sysChildren.findIdx? (fun c => c = bId) with
        | none => (s1, some .invalidIndex)
        | some i =>
          let ypA1 := { ypA with sysChildren := deleteAt ypA.sysChildren i }
          let s2 := { s1 with yBlocks := setA s1.yBlocks pA ypA1 }
          match lookupA s2.yBlocks pB with
          | none => (s2, some (.blockMissing pB))
          | some ypB =>
            match ypB.sysChildren.findIdx? (fun c => c = tId) with
            | none => (s2, some .invalidIndex)
            | some k =>
              let k1 := if top then k else k + 1
              let ypB1 := { ypB with sysChildren := insertAt ypB.sysChildren k1 bId }
              let s3 := { s2 with yBlocks := setA s2.yBlocks pB ypB1 }
              (handleChildrenUpdate (handleChildrenUpdate s3 pA) pB, none)
    | _, _ => (s, some .parentNotFound)

/-- The `bringChildrenTo` option of `deleteBlock`. -/
inductive BringTo : Type
  | parent
  | block (id : String)
deriving DecidableEq, Repr

/-- `Page.deleteBlock(model, { bringChildrenTo })`.  The model-side surgery
(splice out of the parent's children, unshift the orphaned children, drop
the model from the cache) happens before the transaction; the replicated
writes (delete from the flat map, splice and unshift of the parent's
`sys:children`) happen inside one `transact`; the observer then handles
the delete event and the children event. -/
def deleteBlock (s0 : PageState) (bId : String) (bring : BringTo) :
    PageState × Option Err :=
  if s0.readonly then ({ s0 with log := s0.log ++ [readonlyMsg] }, none)
  else
    match lookupA s0.blockMap bId with
    | none => (s0, some (.blockMissing bId))
    | some bm =>
      let parentQ := getParent s0 bId
      let idxQ : Option Nat :=
        match parentQ with
        | some pid =>
          (match lookupA s0.blockMap pid with
           | some pm => pm.children.findIdx? (fun c => c = bId)
           | none => none)
        | none => none
      let s1 :=
        match parentQ, idxQ with
        | some pid, some i =>
          (match lookupA s0.blockMap pid with
           | some pm =>
             let pm1 := { pm with children := deleteAt pm.children i }
             { s0 with blockMap := setA s0.blockMap pid pm1 }
           | none => s0)
        | _, _ => s0
      let s2 :=
        match bring, parentQ with
        | .parent, some pid =>
          (match lookupA s1.blockMap pid with
           | some pm =>
             let pm2 := { pm with children := bm.children ++ pm.children }
             { s1 with blockMap := setA s1.blockMap pid pm2 }
           | none => s1)
        | .block tid, _ =>
          (match lookupA s1.blockMap tid with
           | some tm =>
             let tm2 := { tm with children := bm.children ++ tm.children }
             { s1 with blockMap := setA s1.blockMap tid tm2 }
           | none => s1)
        | _, _ => s1
      let s3 := { s2 with blockMap := deleteKey s2.blockMap bId }
      let s4 := { s3 with txnCount := s3.txnCount + 1,
                          yBlocks := deleteKey s3.yBlocks bId }
      match parentQ with
      | none => (s4, none)
      | some pid =>
        match lookupA s4.yBlocks pid with
        | none => (s4, some (.blockMissing pid))
        | some yp =>
          let yc1 := match idxQ with
            | some i => deleteAt yp.sysChildren i
            | none => yp.sysChildren
          match bring with
          | .parent =>
            let yp1 := { yp with sysChildren := bm.children ++ yc1 }
            let s5 := { s4 with yBlocks := setA s4.yBlocks pid yp1 }
            (handleChildrenUpdate (handleYBlockDelete s5 bId) pid, none)
          | .block tid =>
            let s5 := { s4 with yBlocks := setA s4.yBlocks pid { yp with sysChildren := yc1 } }
            let tChildren := match lookupA s5.blockMap tid with
              | some tm => tm.children
              | none => []
            match updateBlockById s5 tid [] (some tChildren) with
            | (s6, e) => (handleChildrenUpdate (handleYBlockDelete s6 bId) pid, e)

/-- `Page.insertBlock(blockProps, targetModel, top)`: a convenience
composition that opens a transaction, computes the sibling index of the
target in its parent, and calls `addBlockByFlavour` at that index.  Note
that the readonly check only happens inside the nested `addBlockByFlavour`
call, after `this.transact` has already been entered.  (The
`assertExists(blockProps.flavour)` guard checks presence, which the typed
`flavour` argument guarantees here; an empty flavour still fails inside
`addBlockByFlavour`.) -/
def insertBlock (w : WorkspaceState) (s : PageState) (flavour : String)
    (typeProp : Option PropValue) (tId : String) (top : Bool) :
    PageState × Option Err :=
  match getParent s tId with
  | none => (s, some .parentNotFound)
  | some pid =>
    let s1 := { s with txnCount := s.txnCount + 1 }
    match lookupA s1.yBlocks pid with
    | none => (s1, some (.blockMissing pid))
    | some yp =>
      match yp.sysChildren.findIdx? (fun c => c = tId) with
      | none => (s1, some .invalidIndex)
      | some k =>
        let props := match typeProp with
          | some v => [("type", v)]
          | none => []
        match addBlockByFlavour w s1 flavour props (.byId pid)
            (some (if top then k else k + 1)) with
        | ((s2, _), e) => (s2, e)

/-- `Page.undo`: readonly guard with a logged no-op, otherwise delegate to
the external history manager. -/
def undo (s : PageState) : PageState :=
  if s.readonly then { s with log := s.log ++ [readonlyMsg] }
  else { s with yBlocks := s.histUndo s.yBlocks }

/-- `Page.redo`: readonly guard with a logged no-op, otherwise delegate to
the external history manager. -/
def redo (s : PageState) : PageState :=
  if s.readonly then { s with log := s.log ++ [readonlyMsg] }
  else { s with yBlocks := s.histRedo s.yBlocks }

/-- `Page._handleVersion`: stamp fresh versions on an empty document,
validate existing ones otherwise. -/
def handleVersion (w : WorkspaceState) (s : PageState) :
    WorkspaceState × Option Err :=
  if s.yBlocks.isEmpty then
    ({ w with metaVersions := writeVersion w.flavourMap w.metaVersions }, none)
  else
    match validateVersion w.flavourMap w.metaVersions with
    | some e => (w, some (.version e))
    | none => (w, none)

/-- The `_yBlocks.forEach` discovery loop of `syncFromExistingDoc`: visit
every id of the flat map, skipping ids already visited. -/
def syncWalk (w : WorkspaceState) (fuel : Nat) (s : PageState)
    (visited : List String) (ids : List String) :
    (PageState × List String) × Option Err :=
  match ids with
  | [] => ((s, visited), none)
  | id :: rest =>
    if visited.contains id then syncWalk w fuel s visited rest
    else
      match handleYBlockAdd w fuel s (visited ++ [id]) id with
      | ((s1, v1), none) => syncWalk w fuel s1 v1 rest
      | r => r

/-- Modelled from the spec: `tryMigrate` (in `workspace/migrations.js`, not
among the sources) applies data migrations; the spec places migration
scripts out of scope ("only the validation contract is specified", §1),
so it is modelled as the identity on the page state. -/
def tryMigrate (s : PageState) : PageState := s

/-- `Page.syncFromExistingDoc`: the single uninitialized→synced
transition.  Throws when already synced; otherwise migrates, runs the
version gate, registers observers and the external history manager
(`_initYBlocks`, no replicated state), materializes every block of the
flat map, and finally records the synced flag. -/
def syncFromExistingDoc (w : WorkspaceState) (s : PageState) :
    (WorkspaceState × PageState) × Option Err :=
  if s.synced then ((w, s), some .stateError)
  else
    let s0 := tryMigrate s
    match handleVersion w s0 with
    | (w1, some e) => ((w1, s0), some e)
    | (w1, none) =>
      match syncWalk w1 (s0.yBlocks.length + 1) s0 [] (s0.yBlocks.map (fun p => p.1)) with
      | ((s1, _), some e) => ((w1, s1), some e)
      | ((s1, _), none) => ((w1, { s1 with synced := true }), none)

/-! ## Workspace operations -/

/-- `Workspace._hasPage`: is a page store registered under the prefixed
space id? -/
def hasPage (w : WorkspaceState) (pageId : String) : Bool :=
  w.spaces.contains ("space:" ++ pageId)

/-- `Workspace.createPage`: fail when a store for the id is already
registered, otherwise append the fresh descriptor
`{id, title: '', createDate}` to the metadata page index (`addPageMeta`
with no index pushes at the end).  The page store itself is only
constructed later by the deferred page-added handler. -/
def createPage (w : WorkspaceState) (pageId : String) (now : Nat) :
    WorkspaceState × Option Err :=
  if hasPage w pageId then (w, some .pageExists)
  else
    ({ w with metaPages :=
        w.metaPages ++ [{ id := pageId, title := "", createDate := now }] }, none)

/-- `Workspace.register`: `flavourMap.set(key, ctor)` for every entry of
the given schema record, in order. -/
def register (w : WorkspaceState) (blockSchema : List (String × Ctor)) :
    WorkspaceState :=
  { w with flavourMap := blockSchema.foldl (fun m p => setA m p.1 p.2) w.flavourMap }

/-! ## Workspace metadata page events (claim C8 code:
`WorkspaceMeta._handlePageEvent`) -/

/-- One signal emission of `_handlePageEvent`.  `deferredPageAdded` models
`setTimeout(() => this.pageAdded.emit(id))` — the emission is scheduled
for the next tick rather than fired inside the observer callback —
whereas `pageRemoved` and `pagesUpdated` are emitted synchronously inside
the callback. -/
inductive MetaEmit : Type
  | deferredPageAdded (id : String)
  | pageRemoved (id : String)
  | pagesUpdated
deriving DecidableEq, Repr

/-- JS `Set.add`: append if not already present (keeps first insertion
order). -/
def addToSet (s : List String) (x : String) : List String :=
  if s.contains x then s else s ++ [x]

/-- The `isRemoved` test of `_handlePageEvent`:
`!pageMetas.find(p => p.id === prevPageId)`. -/
def isRemoved (pageMetas : List PageMeta) (pid : String) : Bool :=
  ¬ pageMetas.any (fun m => m.id = pid)

/-- `WorkspaceMeta._handlePageEvent`: for every current descriptor whose id
is not in `_prevPages`, schedule a deferred page-added emission (the
`doc.getMap` touch that materializes the fresh container has no modelled
state); for every previous id with no matching descriptor, emit
page-removed synchronously; rebuild `_prevPages` from the current
descriptors; finally emit `pagesUpdated`.  Returns the emissions in
scheduling order together with the new `_prevPages`. -/
def handlePageEvent (prevPages : List String) (pageMetas : List PageMeta) :
    List MetaEmit × List String :=
  let added := (pageMetas.filter (fun m => ¬ prevPages.contains m.id)).map
    (fun m => MetaEmit.deferredPageAdded m.id)
  let removed := (prevPages.filter (isRemoved pageMetas)).map MetaEmit.pageRemoved
  (added ++ removed ++ [MetaEmit.pagesUpdated],
    pageMetas.foldl (fun acc m => addToSet acc m.id) [])

/-! ## Further association-list and list lemmas -/

theorem lookupA_eq_none_iff {α : Type} (m : List (String × α)) (k : String) :
    lookupA m k = none ↔ ¬ k ∈ m.map (fun p => p.1) := by
  induction m with
  | nil => simp [lookupA]
  | cons p rest ih =>
    obtain ⟨k1, v1⟩ := p
    rw [lookupA_cons]
    by_cases hkk : k1 = k
    · subst hkk; simp
    · simp only [if_neg hkk, ih, List.map_cons, List.mem_cons]
      constructor
      · intro h1 h2
        rcases h2 with h2 | h2
        · exact hkk h2.symm
        · exact h1 h2
      · intro h1 h2
        exact h1 (Or.inr h2)

theorem lookupA_eq_some_iff_mem {α : Type} (m : List (String × α)) (k : String) (v : α)
    (h : (m.map (fun p => p.1)).Nodup) :
    lookupA m k = some v ↔ (k, v) ∈ m := by
  induction m with
  | nil => simp [lookupA]
  | cons p rest ih =>
    obtain ⟨k1, v1⟩ := p
    simp only [List.map_cons, List.nodup_cons] at h
    obtain ⟨hk1, hrest⟩ := h
    rw [lookupA_cons, List.mem_cons]
    by_cases hkk : k1 = k
    · subst hkk
      rw [if_pos rfl]
      constructor
      · intro h1
        have hv : v1 = v := by simpa using h1
        exact Or.inl (by rw [hv])
      · rintro (h1 | h1)
        · rw [show v = v1 from (Prod.ext_iff.mp h1).2]
        · exact absurd (by simpa using List.mem_map_of_mem (fun p => p.1) h1) hk1
    · rw [if_neg hkk, ih hrest]
      constructor
      · exact fun h1 => Or.inr h1
      · rintro (h1 | h1)
        · exact absurd (Prod.ext_iff.mp h1).1.symm hkk
        · exact h1

theorem setA_setA_same {α : Type} (m : List (String × α)) (k : String) (v v1 : α) :
    setA (setA m k v) k v1 = setA m k v1 := by
  induction m with
  | nil => simp [setA]
  | cons p rest ih =>
    obtain ⟨k1, w1⟩ := p
    by_cases h : k1 = k
    · simp [setA, h]
    · simp [setA, h, ih]

theorem setA_isEmpty {α : Type} (m : List (String × α)) (k : String) (v : α) :
    (setA m k v).isEmpty = false := by
  cases m with
  | nil => rfl
  | cons p rest =>
    obtain ⟨k1, v1⟩ := p
    by_cases h : k1 = k <;> simp [setA, h]

theorem insertAt_length_self {α : Type} (l : List α) (x : α) :
    insertAt l l.length x = l ++ [x] := by
  simp [insertAt]

theorem deleteAt_first {α : Type} (u v : List α) (b : α) :
    deleteAt (u ++ b :: v) u.length = u ++ v := by
  induction u with
  | nil => simp [deleteAt]
  | cons a rest ih => simp [deleteAt, List.take, List.drop, ih]

theorem insertAt_at_first {α : Type} (u v : List α) (t x : α) :
    insertAt (u ++ t :: v) u.length x = u ++ x :: t :: v := by
  induction u with
  | nil => simp [insertAt]
  | cons a rest ih => simp [insertAt, List.take, List.drop, ih]

theorem insertAt_after_first {α : Type} (u v : List α) (t x : α) :
    insertAt (u ++ t :: v) (u.length + 1) x = u ++ t :: x :: v := by
  simp [insertAt, List.take_append, List.drop_append]

theorem findIdx_first_aux (v : List String) (b : String) :
    ∀ (u : List String), ¬ b ∈ u → ∀ i,
      List.findIdx? (fun c => c = b) (u ++ b :: v) i = some (u.length + i) := by
  intro u
  induction u with
  | nil =>
    intro _ i
    simp [List.findIdx?_cons]
  | cons a rest ih =>
    intro hb i
    have ha : ¬ (a = b) := fun h => hb (h ▸ List.mem_cons_self a rest)
    have hrest : ¬ b ∈ rest := fun h => hb (List.mem_cons_of_mem a h)
    simp only [List.cons_append, List.findIdx?_cons, decide_eq_true_eq]
    rw [if_neg ha, ih hrest (i + 1)]
    have hlen : rest.length + (i + 1) = (a :: rest).length + i := by
      simp only [List.length_cons]
      omega
    rw [hlen]

theorem findIdx_first_occ (u v : List String) (b : String) (hb : ¬ b ∈ u) :
    ((u ++ b :: v).findIdx? (fun c => c = b)) = some u.length := by
  simpa using findIdx_first_aux v b u hb 0

/-! ## Claim C10: `getBlockById` -/

/-- Claim C10.  Over a model cache with unique keys (every insertion into
`_blockMap` keys by the block id), `getBlockById` returns exactly the
model stored under the id, and `null` (here `none`) exactly when no block
with that id is in the cache.  The function is total — in particular it
never throws for an unknown id, it returns `none`. -/
theorem C10_getBlockById (s : PageState) (id : String)
    (h : (s.blockMap.map (fun p => p.1)).Nodup) :
    (∀ m, getBlockById s id = some m ↔ (id, m) ∈ s.blockMap) ∧
    (getBlockById s id = none ↔ ∀ m, ¬ (id, m) ∈ s.blockMap) := by
  constructor
  · intro m
    exact lookupA_eq_some_iff_mem s.blockMap id m h
  · constructor
    · intro hn m hm
      rw [← lookupA_eq_some_iff_mem s.blockMap id m h] at hm
      rw [getBlockById] at hn
      rw [hn] at hm
      cases hm
    · intro hall
      cases hx : getBlockById s id with
      | none => rfl
      | some m =>
        exact absurd ((lookupA_eq_some_iff_mem s.blockMap id m h).mp hx) (hall m)

/-! ## Shared example states -/

/-- A deterministic injected id generator (`Generator.AutoIncrement` of the
test options). -/
def exIdGen : Nat → String := fun n => toString n

/-- Constructor entry for the page flavour. -/
def exCtorPage : Ctor := { name := "PageBlockModel", version := 1 }

/-- Constructor entry for the paragraph flavour. -/
def exCtorPara : Ctor := { name := "ParagraphBlockModel", version := 1 }

/-- A small registered schema. -/
def exFlavourMap : List (String × Ctor) :=
  [("affine:page", exCtorPage), ("affine:paragraph", exCtorPara)]

/-- A workspace with the small schema, empty metadata, and a vacuous
structural rule. -/
def exWorkspace : WorkspaceState :=
  { flavourMap := exFlavourMap, metaPages := [], metaVersions := [],
    spaces := [], prevPages := [], childrenRule := fun _ _ => true }

/-- Build a page state around the given containers. -/
def mkPage (yBlocks : List (String × YBlock)) (blockMap : List (String × BlockModel))
    (rootId : Option String) (ro : Bool) : PageState :=
  { yBlocks := yBlocks, blockMap := blockMap, rootId := rootId,
    surfaceId := none, synced := false, readonly := ro,
    idGen := exIdGen, idCounter := 0, txnCount := 0, log := [],
    histUndo := id, histRedo := id }

/-- Raw root block `r` with children `b`, `x`, `t`. -/
def yRootEx : YBlock :=
  { sysId := "r", sysFlavour := "affine:page", sysChildren := ["b", "x", "t"], props := [] }

/-- Raw block `b` with children `c1`, `c2`. -/
def yBEx : YBlock :=
  { sysId := "b", sysFlavour := "affine:paragraph", sysChildren := ["c1", "c2"],
    props := [("text", .str "beta")] }

/-- Raw leaf block. -/
def yLeafEx (i : String) : YBlock :=
  { sysId := i, sysFlavour := "affine:paragraph", sysChildren := [],
    props := [("text", .str i)] }

/-- Model for the root of the example tree. -/
def mRootEx : BlockModel :=
  { id := "r", flavour := "affine:page", ctor := exCtorPage, props := [],
    children := ["b", "x", "t"], childMap := createChildMap ["b", "x", "t"] }

/-- Model for block `b` of the example tree. -/
def mBEx : BlockModel :=
  { id := "b", flavour := "affine:paragraph", ctor := exCtorPara,
    props := [("text", .str "beta")], children := ["c1", "c2"],
    childMap := createChildMap ["c1", "c2"] }

/-- Model for a leaf of the example tree. -/
def mLeafEx (i : String) : BlockModel :=
  { id := i, flavour := "affine:paragraph", ctor := exCtorPara,
    props := [("text", .str i)], children := [], childMap := [] }

/-- The synced example page: tree `r → [b → [c1, c2], x, t]`. -/
def treePage : PageState :=
  mkPage
    [("r", yRootEx), ("b", yBEx), ("c1", yLeafEx "c1"), ("c2", yLeafEx "c2"),
     ("x", yLeafEx "x"), ("t", yLeafEx "t")]
    [("r", mRootEx), ("b", mBEx), ("c1", mLeafEx "c1"), ("c2", mLeafEx "c2"),
     ("x", mLeafEx "x"), ("t", mLeafEx "t")]
    (some "r") false

/-- Witness for `C10_getBlockById` on the example tree: the lookup of `b`
is exactly membership of its model entry. -/
theorem C10_witness :
    getBlockById treePage "b" = some mBEx ↔ ("b", mBEx) ∈ treePage.blockMap :=
  (C10_getBlockById treePage "b" (by decide)).1 mBEx

/-! ## Claim C7: `Workspace.register` -/

theorem lookupA_register_foldl {m : List (String × Ctor)}
    (l : List (String × Ctor)) (k : String)
    (hnd : (l.map (fun p => p.1)).Nodup) :
    lookupA (l.foldl (fun acc p => setA acc p.1 p.2) m) k =
      match lookupA l k with
      | some v => some v
      | none => lookupA m k := by
  induction l generalizing m with
  | nil => simp [lookupA]
  | cons p rest ih =>
    obtain ⟨k1, v1⟩ := p
    simp only [List.map_cons, List.nodup_cons] at hnd
    obtain ⟨hk1, hrest⟩ := hnd
    rw [List.foldl_cons, ih hrest, lookupA_cons]
    by_cases hkk : k1 = k
    · subst hkk
      rw [if_pos rfl]
      have hnone : lookupA rest k1 = none :=
        (lookupA_eq_none_iff rest k1).mpr hk1
      rw [hnone, lookupA_setA_self]
    · rw [if_neg hkk]
      cases hl : lookupA rest k with
      | some v => rfl
      | none => rw [lookupA_setA_ne m k1 k v1 (fun hh => hkk hh.symm)]

/-- Claim C7.  Registering `schema2` after `schema1` on any workspace: a
flavour name bound by `schema2` afterwards maps to the constructor of the
later registration (last write wins: `register` is a total function, no
error or uniqueness check exists), while a name not bound by `schema2`
keeps whatever binding the first registration left.  `schema2` has unique
keys because a JS object literal cannot repeat a key. -/
theorem C7_register_last_wins (w : WorkspaceState)
    (schema1 schema2 : List (String × Ctor)) (name : String)
    (hnd : (schema2.map (fun p => p.1)).Nodup) :
    (∀ c2, lookupA schema2 name = some c2 →
      lookupA (register (register w schema1) schema2).flavourMap name = some c2) ∧
    (lookupA schema2 name = none →
      lookupA (register (register w schema1) schema2).flavourMap name =
        lookupA (register w schema1).flavourMap name) := by
  have key := lookupA_register_foldl
    (m := (register w schema1).flavourMap) schema2 name hnd
  constructor
  · intro c2 h2
    rw [show (register (register w schema1) schema2).flavourMap =
        schema2.foldl (fun acc p => setA acc p.1 p.2) (register w schema1).flavourMap
      from rfl, key, h2]
  · intro h2
    rw [show (register (register w schema1) schema2).flavourMap =
        schema2.foldl (fun acc p => setA acc p.1 p.2) (register w schema1).flavourMap
      from rfl, key, h2]

/-- Witness for `C7_register_last_wins`: re-registering `affine:page` with
a different constructor makes the registry map it to the later one. -/
theorem C7_witness :
    lookupA (register (register exWorkspace [("affine:page", exCtorPage)])
      [("affine:page", exCtorPara)]).flavourMap "affine:page" = some exCtorPara :=
  (C7_register_last_wins exWorkspace [("affine:page", exCtorPage)]
    [("affine:page", exCtorPara)] "affine:page" (by decide)).1 exCtorPara (by decide)

/-! ## Claim C6: `Workspace.createPage` -/

/-- Claim C6.  `createPage` fails with the already-exists error exactly
when a page store is already registered for the id (the `_hasPage` check
is against the store registry, not the descriptor index); otherwise it
only appends the descriptor `{id, title: '', createDate}` to the metadata
page index and leaves the store registry untouched — the store itself is
constructed later by the deferred page-added handler. -/
theorem C6_createPage (w : WorkspaceState) (pageId : String) (now : Nat) :
    (hasPage w pageId = true → createPage w pageId now = (w, some Err.pageExists)) ∧
    (hasPage w pageId = false →
      createPage w pageId now =
        ({ w with metaPages := w.metaPages ++
            [{ id := pageId, title := "", createDate := now }] }, none) ∧
      (createPage w pageId now).1.spaces = w.spaces) := by
  constructor
  · intro h
    simp [createPage, h]
  · intro h
    exact ⟨by simp [createPage, h], by simp [createPage, h]⟩

/-- A workspace that has the store for page `p0` registered. -/
def exMetaWorkspace : WorkspaceState :=
  { exWorkspace with spaces := ["space:p0"],
                     metaPages := [{ id := "p0", title := "", createDate := 7 }] }

/-- Witness for `C6_createPage`: creating the already-registered `p0`
fails, creating the fresh `p1` appends exactly its descriptor. -/
theorem C6_witness :
    createPage exMetaWorkspace "p0" 42 = (exMetaWorkspace, some Err.pageExists) ∧
    createPage exMetaWorkspace "p1" 42 =
      ({ exMetaWorkspace with metaPages := exMetaWorkspace.metaPages ++
          [{ id := "p1", title := "", createDate := 42 }] }, none) :=
  ⟨(C6_createPage exMetaWorkspace "p0" 42).1 (by decide),
   ((C6_createPage exMetaWorkspace "p1" 42).2 (by decide)).1⟩

/-! ## Claim C2: `syncFromExistingDoc` called twice -/

theorem sync_success_synced (w : WorkspaceState) (s : PageState)
    (w1 : WorkspaceState) (s1 : PageState)
    (h : syncFromExistingDoc w s = ((w1, s1), none)) : s1.synced = true := by
  rw [syncFromExistingDoc] at h
  split at h
  · simp at h
  · simp only [tryMigrate] at h
    split at h
    · simp at h
    · split at h
      · simp at h
      · simp only [Prod.mk.injEq] at h
        obtain ⟨⟨-, hs1⟩, -⟩ := h
        rw [← hs1]

/-- Claim C2 (amended).  After a `syncFromExistingDoc` call that succeeds,
the store is marked synced, and a second call fails with the StateError
while returning the workspace and the page state — replicated block map
and typed model projection included — exactly unchanged. -/
theorem C2_sync_twice (w : WorkspaceState) (s : PageState)
    (w1 : WorkspaceState) (s1 : PageState)
    (h : syncFromExistingDoc w s = ((w1, s1), none)) :
    syncFromExistingDoc w1 s1 = ((w1, s1), some Err.stateError) := by
  have hsync : s1.synced = true := sync_success_synced w s w1 s1 h
  rw [syncFromExistingDoc, if_pos hsync]

/-- A brand-new page over an empty document. -/
def freshPage : PageState := mkPage [] [] none false

/-- The result of the first (successful) sync of `freshPage`. -/
def c2FirstSync : (WorkspaceState × PageState) × Option Err :=
  syncFromExistingDoc exWorkspace freshPage

/-- Witness for `C2_sync_twice`: sync the fresh page once (succeeds,
writing version stamps), then the second call fails with the StateError
and changes nothing. -/
theorem C2_witness :
    syncFromExistingDoc c2FirstSync.1.1 c2FirstSync.1.2 =
      ((c2FirstSync.1.1, c2FirstSync.1.2), some Err.stateError) :=
  C2_sync_twice exWorkspace freshPage c2FirstSync.1.1 c2FirstSync.1.2 (by rfl)

/-- A page whose document already holds a block while the workspace ledger
is empty, so the version gate fails. -/
def badVersionPage : PageState :=
  mkPage [("a", yLeafEx "a")] [] none false

/-- Claim C2 as stated is false on the code: `syncFromExistingDoc` has
already been called once on this store — the call failed in the version
gate, which leaves `_synced` false — and the second call then fails with
the same ConfigurationError, not with the StateError the claim requires
for every second call. -/
theorem C2_counterexample :
    (syncFromExistingDoc exWorkspace badVersionPage).2 =
      some (Err.version VersionError.configurationError) ∧
    (syncFromExistingDoc (syncFromExistingDoc exWorkspace badVersionPage).1.1
        (syncFromExistingDoc exWorkspace badVersionPage).1.2).2 =
      some (Err.version VersionError.configurationError) ∧
    Err.version VersionError.configurationError ≠ Err.stateError :=
  ⟨rfl, rfl, by decide⟩

/-! ## Claim C8: `_handlePageEvent` signal scheduling -/

theorem count_added_map (l : List PageMeta) (idv : String) :
    ((l.map (fun m => MetaEmit.deferredPageAdded m.id)).count
        (MetaEmit.deferredPageAdded idv)) =
      (l.filter (fun m => m.id = idv)).length := by
  induction l with
  | nil => rfl
  | cons m rest ih =>
    by_cases h : m.id = idv
    · simp [List.count_cons, List.filter_cons, h, ih]
    · simp [List.count_cons, List.filter_cons, h, ih]

theorem count_removed_in_added_map (l : List PageMeta) (idv : String) :
    ((l.map (fun m => MetaEmit.deferredPageAdded m.id)).count
        (MetaEmit.pageRemoved idv)) = 0 := by
  rw [List.count_eq_zero]
  intro hmem
  rw [List.mem_map] at hmem
  obtain ⟨m, -, hm⟩ := hmem
  cases hm

theorem count_updated_in_added_map (l : List PageMeta) :
    ((l.map (fun m => MetaEmit.deferredPageAdded m.id)).count
        MetaEmit.pagesUpdated) = 0 := by
  rw [List.count_eq_zero]
  intro hmem
  rw [List.mem_map] at hmem
  obtain ⟨m, -, hm⟩ := hmem
  cases hm

theorem count_added_in_removed_map (l : List String) (idv : String) :
    ((l.map MetaEmit.pageRemoved).count (MetaEmit.deferredPageAdded idv)) = 0 := by
  rw [List.count_eq_zero]
  intro hmem
  rw [List.mem_map] at hmem
  obtain ⟨m, -, hm⟩ := hmem
  cases hm

theorem count_updated_in_removed_map (l : List String) :
    ((l.map MetaEmit.pageRemoved).count MetaEmit.pagesUpdated) = 0 := by
  rw [List.count_eq_zero]
  intro hmem
  rw [List.mem_map] at hmem
  obtain ⟨m, -, hm⟩ := hmem
  cases hm

theorem count_removed_map (l : List String) (idv : String) (p : String → Bool)
    (hnd : l.Nodup) :
    (((l.filter p).map MetaEmit.pageRemoved).count (MetaEmit.pageRemoved idv)) =
      if idv ∈ l ∧ p idv = true then 1 else 0 := by
  have hinj : Function.Injective MetaEmit.pageRemoved := by
    intro a b hab
    cases hab
    rfl
  rw [List.count_map_of_injective _ _ hinj]
  by_cases hp : p idv = true
  · rw [List.count_filter hp]
    by_cases hm : idv ∈ l
    · rw [List.count_eq_one_of_mem hnd hm, if_pos ⟨hm, hp⟩]
    · rw [List.count_eq_zero_of_not_mem hm, if_neg (fun hc => hm hc.1)]
  · have h0 : List.count idv (l.filter p) = 0 :=
      List.count_eq_zero.mpr (fun hc => hp (List.of_mem_filter hc))
    rw [h0, if_neg (fun hc => hp hc.2)]

theorem filter_not_contains_filter (prev : List String) (metas : List PageMeta)
    (idv : String) :
    ((metas.filter (fun m => ¬ prev.contains m.id)).filter
        (fun m => m.id = idv)).length =
      if prev.contains idv then 0
      else (metas.filter (fun m => m.id = idv)).length := by
  rw [List.filter_filter]
  by_cases hc : prev.contains idv = true
  · have hmem : idv ∈ prev := by simpa using hc
    rw [if_pos hc, List.length_eq_zero, List.filter_eq_nil_iff]
    intro m hm
    by_cases hmi : m.id = idv
    · simp [hmi, hmem]
    · simp [hmi]
  · have hmem : ¬ idv ∈ prev := by simpa using hc
    rw [if_neg hc]
    congr 1
    apply List.filter_congr
    intro m hm
    by_cases hmi : m.id = idv
    · simp [hmi, hmem]
    · simp [hmi]

theorem mem_addToSet (a : List String) (x y : String) :
    y ∈ addToSet a x ↔ y ∈ a ∨ y = x := by
  by_cases h : a.contains x
  · rw [addToSet, if_pos h]
    constructor
    · exact Or.inl
    · rintro (hy | hy)
      · exact hy
      · rw [hy]
        simpa using h
  · rw [addToSet, if_neg h]
    simp [List.mem_append]

theorem mem_foldl_addToSet (metas : List PageMeta) (acc : List String) (y : String) :
    y ∈ metas.foldl (fun a m => addToSet a m.id) acc ↔
      y ∈ acc ∨ ∃ m ∈ metas, m.id = y := by
  induction metas generalizing acc with
  | nil => simp
  | cons m rest ih =>
    rw [List.foldl_cons, ih, mem_addToSet]
    constructor
    · rintro ((h | h) | h)
      · exact Or.inl h
      · exact Or.inr ⟨m, List.mem_cons_self m rest, h.symm⟩
      · obtain ⟨m1, hm1, hy⟩ := h
        exact Or.inr ⟨m1, List.mem_cons_of_mem m hm1, hy⟩
    · rintro (h | ⟨m1, hm1, hy⟩)
      · exact Or.inl (Or.inl h)
      · rcases List.mem_cons.mp hm1 with h1 | h1
        · subst h1
          exact Or.inl (Or.inr hy.symm)
        · exact Or.inr ⟨m1, h1, hy⟩

/-- Claim C8 (amended).  On every deep-change batch touching the page
index, the observer schedules one deferred (next-tick) page-added emission
per current descriptor whose id is not in the previous id set — hence,
when descriptor ids are unique, once per added id — and emits one
synchronous page-removed per previous id that no current descriptor
carries, plus one synchronous pages-updated; the new previous-id set is
exactly the set of current descriptor ids.  The deferral of page-added
versus the synchronous page-removed is captured by the emission
constructors (see `MetaEmit`).  The previous-id set is duplicate-free
because it is rebuilt through set insertion. -/
theorem C8_handlePageEvent (prev : List String) (metas : List PageMeta)
    (hnd : prev.Nodup) :
    (∀ idv, ((handlePageEvent prev metas).1.count (MetaEmit.deferredPageAdded idv)) =
        if prev.contains idv then 0
        else (metas.filter (fun m => m.id = idv)).length) ∧
    (∀ idv, ((handlePageEvent prev metas).1.count (MetaEmit.pageRemoved idv)) =
        if idv ∈ prev ∧ isRemoved metas idv = true then 1 else 0) ∧
    (∀ idv, isRemoved metas idv = true ↔ ∀ m ∈ metas, ¬ m.id = idv) ∧
    ((handlePageEvent prev metas).1.count MetaEmit.pagesUpdated = 1) ∧
    (∀ idv, idv ∈ (handlePageEvent prev metas).2 ↔ ∃ m ∈ metas, m.id = idv) := by
  refine ⟨?_, ?_, ?_, ?_, ?_⟩
  · intro idv
    simp only [handlePageEvent, List.count_append]
    rw [count_added_map, count_added_in_removed_map, filter_not_contains_filter]
    have h1 : List.count (MetaEmit.deferredPageAdded idv) [MetaEmit.pagesUpdated] = 0 := by
      simp [List.count_cons]
    rw [h1]
    omega
  · intro idv
    simp only [handlePageEvent, List.count_append]
    rw [count_removed_in_added_map, count_removed_map _ _ _ hnd]
    have h1 : List.count (MetaEmit.pageRemoved idv) [MetaEmit.pagesUpdated] = 0 := by
      simp [List.count_cons]
    rw [h1]
    omega
  · intro idv
    simp [isRemoved, List.any_eq_true]
  · simp only [handlePageEvent, List.count_append]
    rw [count_updated_in_added_map, count_updated_in_removed_map]
    simp [List.count_cons]
  · intro idv
    simp only [handlePageEvent]
    rw [mem_foldl_addToSet]
    simp

/-- Two descriptors carrying the same page id. -/
def dupMetas : List PageMeta :=
  [{ id := "p", title := "", createDate := 0 },
   { id := "p", title := "", createDate := 1 }]

/-- Claim C8 as stated is false on the code: with an empty previous set
and two descriptors that share the id `p`, the current descriptor-id set
is the singleton set containing `p`, so the claim requires the page-added
signal to be emitted once for `p`; the observer emits one deferred
page-added per descriptor, so it fires twice. -/
theorem C8_counterexample :
    ((handlePageEvent [] dupMetas).1.count (MetaEmit.deferredPageAdded "p")) = 2 ∧
    (∀ m ∈ dupMetas, m.id = "p") ∧ ([] : List String) = [] := by
  refine ⟨by decide, by decide, rfl⟩

/-- Witness for `C8_handlePageEvent` at a concrete batch: previous set
`{q}`, one current descriptor with fresh id `p`: the page-added emission
count for `p` matches the characterization, and `q` is reported removed. -/
theorem C8_witness :
    (((handlePageEvent ["q"] [{ id := "p", title := "", createDate := 0 }]).1.count
        (MetaEmit.deferredPageAdded "p")) =
      if (["q"] : List String).contains "p" then 0
      else (([{ id := "p", title := "", createDate := 0 }] : List PageMeta).filter
        (fun m => m.id = "p")).length) :=
  (C8_handlePageEvent ["q"] [{ id := "p", title := "", createDate := 0 }]
    (by decide)).1 "p"

/-! ## Claim C5: readonly mode guards every mutation entry point -/

/-- Claim C5 (amended).  When the read-only predicate holds, every listed
mutation entry point leaves the replicated block map and the typed model
cache entirely unchanged — no partial write occurs: `addBlock` fails with
the readonly error before doing anything, while `updateBlock`,
`moveBlock`, `deleteBlock`, `undo` and `redo` silently no-op, appending
only the log line, all without entering a transaction.  The exception —
and the one amendment to the claim — is `insertBlock`: it enters its
transaction first and only then fails with the readonly error raised by
the nested `addBlock`, still without performing any write. -/
theorem C5_readonly_guards (w : WorkspaceState) (s : PageState)
    (flavour : String) (props : List (String × PropValue)) (pa : ParentArg)
    (parentIndex : Option Nat) (mId bId tId : String) (top : Bool) (br : BringTo)
    (childrenRepl : Option (List String))
    (hro : s.readonly = true) :
    (addBlockByFlavour w s flavour props pa parentIndex =
      ((s, none), some Err.readOnly)) ∧
    (updateBlock s mId props childrenRepl =
      ({ s with log := s.log ++ [readonlyMsg] }, none)) ∧
    (moveBlock s bId tId top = ({ s with log := s.log ++ [readonlyMsg] }, none)) ∧
    (deleteBlock s bId br = ({ s with log := s.log ++ [readonlyMsg] }, none)) ∧
    (undo s = { s with log := s.log ++ [readonlyMsg] }) ∧
    (redo s = { s with log := s.log ++ [readonlyMsg] }) ∧
    (∀ pid yp k, getParent s tId = some pid →
      lookupA s.yBlocks pid = some yp →
      yp.sysChildren.findIdx? (fun c => c = tId) = some k →
      insertBlock w s flavour none tId top =
        ({ s with txnCount := s.txnCount + 1 }, some Err.readOnly)) := by
  refine ⟨?_, ?_, ?_, ?_, ?_, ?_, ?_⟩
  · simp [addBlockByFlavour, hro]
  · simp [updateBlock, hro]
  · simp [moveBlock, hro]
  · simp [deleteBlock, hro]
  · simp [undo, hro]
  · simp [redo, hro]
  · intro pid yp k hparent hyp hfind
    rw [insertBlock, hparent]
    dsimp only
    rw [hyp]
    dsimp only
    rw [hfind]
    simp [addBlockByFlavour, hro]

/-- The example tree page in readonly mode. -/
def roPage : PageState := { treePage with readonly := true }

/-- Witness for `C5_readonly_guards` on the readonly example tree,
instantiating the insertBlock conjunct at target `t` under parent `r`. -/
theorem C5_witness :
    insertBlock exWorkspace roPage "affine:paragraph" none "t" true =
      ({ roPage with txnCount := roPage.txnCount + 1 }, some Err.readOnly) :=
  (C5_readonly_guards exWorkspace roPage "affine:paragraph" [] ParentArg.undef
      none "b" "b" "t" true BringTo.parent none rfl).2.2.2.2.2.2 "r" yRootEx 2
    (by rfl) (by rfl) (by rfl)

/-- Claim C5 as stated is false on the code: with the read-only predicate
holding, `insertBlock` does enter a transaction — the `transact()`
invocation count grows by one — before the readonly check inside the
nested `addBlock` call makes the call fail; the replicated block map is
nevertheless unchanged. -/
theorem C5_counterexample :
    roPage.readonly = true ∧
    (insertBlock exWorkspace roPage "affine:paragraph" none "t" true).1.txnCount =
      roPage.txnCount + 1 ∧
    (insertBlock exWorkspace roPage "affine:paragraph" none "t" true).1.yBlocks =
      roPage.yBlocks ∧
    (insertBlock exWorkspace roPage "affine:paragraph" none "t" true).2 =
      some Err.readOnly :=
  ⟨rfl, rfl, rfl, rfl⟩

/-! ## Claim C4: `addBlockByFlavour` -/

theorem resolveParentId_congr (s1 s2 : PageState) (pa : ParentArg)
    (hroot : s1.rootId = s2.rootId) (hmap : s1.blockMap = s2.blockMap) :
    resolveParentId s1 pa = resolveParentId s2 pa := by
  cases pa <;> simp [resolveParentId, hroot, hmap]

theorem handleChildrenUpdate_eq (s : PageState) (pid : String) (yb : YBlock)
    (pm : BlockModel) (h1 : lookupA s.yBlocks pid = some yb)
    (h2 : lookupA s.blockMap pid = some pm) :
    handleChildrenUpdate s pid =
      { s with
        blockMap :=
          setA s.blockMap pid
            { pm with
              children := yb.sysChildren,
              childMap := createChildMap yb.sysChildren } } := by
  rw [handleChildrenUpdate, h1, h2]

theorem handleChildrenUpdate_yBlocks (s : PageState) (pid : String) :
    (handleChildrenUpdate s pid).yBlocks = s.yBlocks := by
  rw [handleChildrenUpdate]
  split <;> rfl

theorem handleChildrenUpdate_txnCount (s : PageState) (pid : String) :
    (handleChildrenUpdate s pid).txnCount = s.txnCount := by
  rw [handleChildrenUpdate]
  split <;> rfl

/-- Materializing a freshly written block with no children, a registered
flavour, a non-empty model cache and no rich-text default needed: the only
state change is the new model entry in the cache. -/
theorem handleYBlockAdd_leaf (w : WorkspaceState) (fuel : Nat) (s : PageState)
    (visited : List String) (id : String) (yb : YBlock) (ctor : Ctor)
    (hyb : lookupA s.yBlocks id = some yb)
    (hch : yb.sysChildren = [])
    (hne : s.blockMap.isEmpty = false)
    (hctor : lookupA w.flavourMap yb.sysFlavour = some ctor)
    (hid : ¬ id = "")
    (hsurf : ¬ yb.sysFlavour = "affine:surface")
    (htext : (yb.sysFlavour = "affine:paragraph" ∨ yb.sysFlavour = "affine:list" ∨
        yb.sysFlavour = "affine:code") → ¬ lookupA yb.props "text" = none) :
    handleYBlockAdd w (fuel + 1) s visited id =
      (({ s with
          blockMap :=
            setA s.blockMap id
              { id := id, flavour := yb.sysFlavour, ctor := ctor,
                props := yb.props, children := [], childMap := [] } },
        visited), none) := by
  rw [handleYBlockAdd, hyb]
  dsimp only
  rw [hctor]
  dsimp only
  rw [if_neg hid]
  rw [if_neg (fun hc => htext hc.1 hc.2)]
  rw [hch]
  dsimp only
  rw [show createChildMap [] = [] from rfl]
  rw [show ∀ s3 v3, addChildrenLoop w fuel s3 v3 [] = ((s3, v3), none) from
    fun s3 v3 => by rw [addChildrenLoop]]
  dsimp only
  rw [if_neg (by simp [hne]), if_neg hsurf]
  simp [setA_setA_same]

theorem handleYBlockAdd_unregistered (w : WorkspaceState) (fuel : Nat)
    (s : PageState) (visited : List String) (id : String) (yb : YBlock)
    (hyb : lookupA s.yBlocks id = some yb)
    (hnone : lookupA w.flavourMap yb.sysFlavour = none) :
    handleYBlockAdd w (fuel + 1) s visited id =
      ((s, visited), some (Err.notRegistered yb.sysFlavour)) := by
  rw [handleYBlockAdd, hyb]
  dsimp only
  rw [hnone]

/-- The index-defaulted splice of `addBlockByFlavour`:
`yChildren.insert(parentIndex ?? yChildren.length, [id])`. -/
def spliced (yp : YBlock) (parentIndex : Option Nat) (newId : String) : List String :=
  insertAt yp.sysChildren (parentIndex.getD yp.sysChildren.length) newId

/-- The committed shape of a successful `addBlockByFlavour` call with a
resolving parent: one transaction, the parent's replicated child list
spliced at the requested index, the new raw block written, and — through
the synchronously fired observer — the parent model refreshed and the new
model materialized. -/
theorem addBlock_success_eq (w : WorkspaceState) (s : PageState) (flavour : String)
    (props : List (String × PropValue)) (pa : ParentArg) (parentIndex : Option Nat)
    (pid : String) (yp : YBlock) (pm : BlockModel) (ctor : Ctor)
    (hro : s.readonly = false)
    (hfl : ¬ flavour = "")
    (hrule : assertValidChildren w flavour props = true)
    (hres : resolveParentId s pa = some pid)
    (hyp : lookupA s.yBlocks pid = some yp)
    (hidx : parentIndex.getD yp.sysChildren.length ≤ yp.sysChildren.length)
    (hpm : lookupA s.blockMap pid = some pm)
    (hpidne : ¬ pid = s.idGen s.idCounter)
    (hidne : ¬ s.idGen s.idCounter = "")
    (hctor : lookupA w.flavourMap flavour = some ctor)
    (hsurf : ¬ flavour = "affine:surface")
    (htext : (flavour = "affine:paragraph" ∨ flavour = "affine:list" ∨
        flavour = "affine:code") → ¬ lookupA props "text" = none) :
    addBlockByFlavour w s flavour props pa parentIndex =
      (({ s with
          idCounter := s.idCounter + 1,
          txnCount := s.txnCount + 1,
          yBlocks :=
            setA (setA s.yBlocks pid
                { yp with sysChildren := spliced yp parentIndex (s.idGen s.idCounter) })
              (s.idGen s.idCounter)
              { sysId := s.idGen s.idCounter, sysFlavour := flavour,
                sysChildren := [], props := props },
          blockMap :=
            setA (setA s.blockMap pid
                { pm with
                  children := spliced yp parentIndex (s.idGen s.idCounter),
                  childMap := createChildMap (spliced yp parentIndex (s.idGen s.idCounter)) })
              (s.idGen s.idCounter)
              { id := s.idGen s.idCounter, flavour := flavour, ctor := ctor,
                props := props, children := [], childMap := [] } },
        some (s.idGen s.idCounter)), none) := by
  rw [addBlockByFlavour]
  rw [if_neg (by simp [hro])]
  rw [if_neg hfl]
  dsimp only
  rw [if_neg (by simp [hrule])]
  rw [(resolveParentId_congr
    { s with idCounter := s.idCounter + 1, txnCount := s.txnCount + 1 }
    s pa rfl rfl).trans hres]
  dsimp only
  rw [hyp]
  dsimp only
  rw [if_neg (by omega)]
  rw [handleChildrenUpdate_eq _ pid
    { yp with sysChildren := spliced yp parentIndex (s.idGen s.idCounter) } pm ?hcu1 ?hcu2]
  case hcu1 => exact (lookupA_setA_ne _ _ _ _ hpidne).trans (lookupA_setA_self _ _ _)
  case hcu2 => exact hpm
  dsimp only
  rw [handleYBlockAdd_leaf w _ _ [s.idGen s.idCounter] (s.idGen s.idCounter)
    { sysId := s.idGen s.idCounter, sysFlavour := flavour,
      sysChildren := [], props := props } ctor ?ha1 ?ha2 ?ha3 ?ha4 ?ha5 ?ha6 ?ha7]
  case ha1 => exact lookupA_setA_self _ _ _
  case ha2 => rfl
  case ha3 => exact setA_isEmpty _ _ _
  case ha4 => exact hctor
  case ha5 => exact hidne
  case ha6 => exact hsurf
  case ha7 => exact htext
  rfl

/-- The shape of an `addBlockByFlavour` call whose flavour is not in the
workspace schema: the transaction commits the raw write, and the call then
fails inside the synchronously fired observer when `_createBlockModel`
finds no constructor. -/
theorem addBlock_unregistered_eq (w : WorkspaceState) (s : PageState) (flavour : String)
    (props : List (String × PropValue)) (pa : ParentArg) (parentIndex : Option Nat)
    (pid : String) (yp : YBlock) (pm : BlockModel)
    (hro : s.readonly = false)
    (hfl : ¬ flavour = "")
    (hrule : assertValidChildren w flavour props = true)
    (hres : resolveParentId s pa = some pid)
    (hyp : lookupA s.yBlocks pid = some yp)
    (hidx : parentIndex.getD yp.sysChildren.length ≤ yp.sysChildren.length)
    (hpm : lookupA s.blockMap pid = some pm)
    (hpidne : ¬ pid = s.idGen s.idCounter)
    (hnone : lookupA w.flavourMap flavour = none) :
    (addBlockByFlavour w s flavour props pa parentIndex).2 =
      some (Err.notRegistered flavour) := by
  rw [addBlockByFlavour]
  rw [if_neg (by simp [hro])]
  rw [if_neg hfl]
  dsimp only
  rw [if_neg (by simp [hrule])]
  rw [(resolveParentId_congr
    { s with idCounter := s.idCounter + 1, txnCount := s.txnCount + 1 }
    s pa rfl rfl).trans hres]
  dsimp only
  rw [hyp]
  dsimp only
  rw [if_neg (by omega)]
  rw [handleChildrenUpdate_eq _ pid
    { yp with sysChildren := spliced yp parentIndex (s.idGen s.idCounter) } pm ?hcu1 ?hcu2]
  case hcu1 => exact (lookupA_setA_ne _ _ _ _ hpidne).trans (lookupA_setA_self _ _ _)
  case hcu2 => exact hpm
  dsimp only
  rw [handleYBlockAdd_unregistered w _ _ [s.idGen s.idCounter] (s.idGen s.idCounter)
    { sysId := s.idGen s.idCounter, sysFlavour := flavour,
      sysChildren := [], props := props } ?hu1 ?hu2]
  case hu1 => exact lookupA_setA_self _ _ _
  case hu2 => exact hnone

/-- Claim C4.  On a writable page, `addBlock(flavour, props, parent,
index)` obtains a fresh id from the injected id generator and returns it;
inside one transaction it writes the `sys:*` fields and one `prop:*` field
per given property for the new block, and inserts the new id into the
parent's ordered children list at the given index, defaulting to the end
of the list; the call fails when the flavour is the empty string and when
the flavour has no entry in the workspace schema.  Side conditions beyond
the claim: the structural children check passes, the parent resolves to an
existing block, the index is within bounds, the generated id is fresh and
non-empty, and the flavour is neither the auxiliary surface flavour nor a
rich-text flavour whose missing default text would be initialized by a
second observer-side transaction. -/
theorem C4_addBlock (w : WorkspaceState) (s : PageState) (flavour : String)
    (props : List (String × PropValue)) (pa : ParentArg) (parentIndex : Option Nat)
    (pid : String) (yp : YBlock) (pm : BlockModel) (ctor : Ctor) :
    (s.readonly = false →
      addBlockByFlavour w s "" props pa parentIndex =
        ((s, none), some Err.missingFlavour)) ∧
    (s.readonly = false → ¬ flavour = "" →
      assertValidChildren w flavour props = true →
      resolveParentId s pa = some pid →
      lookupA s.yBlocks pid = some yp →
      parentIndex.getD yp.sysChildren.length ≤ yp.sysChildren.length →
      lookupA s.blockMap pid = some pm →
      ¬ pid = s.idGen s.idCounter →
      lookupA w.flavourMap flavour = none →
      (addBlockByFlavour w s flavour props pa parentIndex).2 =
        some (Err.notRegistered flavour)) ∧
    (s.readonly = false → ¬ flavour = "" →
      assertValidChildren w flavour props = true →
      resolveParentId s pa = some pid →
      lookupA s.yBlocks pid = some yp →
      parentIndex.getD yp.sysChildren.length ≤ yp.sysChildren.length →
      lookupA s.blockMap pid = some pm →
      ¬ pid = s.idGen s.idCounter →
      ¬ s.idGen s.idCounter = "" →
      lookupA w.flavourMap flavour = some ctor →
      ¬ flavour = "affine:surface" →
      ((flavour = "affine:paragraph" ∨ flavour = "affine:list" ∨
        flavour = "affine:code") → ¬ lookupA props "text" = none) →
      ((addBlockByFlavour w s flavour props pa parentIndex).2 = none ∧
       (addBlockByFlavour w s flavour props pa parentIndex).1.2 =
         some (s.idGen s.idCounter) ∧
       (addBlockByFlavour w s flavour props pa parentIndex).1.1.txnCount =
         s.txnCount + 1 ∧
       (addBlockByFlavour w s flavour props pa parentIndex).1.1.idCounter =
         s.idCounter + 1 ∧
       lookupA (addBlockByFlavour w s flavour props pa parentIndex).1.1.yBlocks
           (s.idGen s.idCounter) =
         some { sysId := s.idGen s.idCounter, sysFlavour := flavour,
                sysChildren := [], props := props } ∧
       lookupA (addBlockByFlavour w s flavour props pa parentIndex).1.1.yBlocks pid =
         some { yp with sysChildren := spliced yp parentIndex (s.idGen s.idCounter) } ∧
       (parentIndex = none →
         lookupA (addBlockByFlavour w s flavour props pa parentIndex).1.1.yBlocks pid =
           some { yp with sysChildren :=
               yp.sysChildren ++ [s.idGen s.idCounter] }) ∧
       lookupA (addBlockByFlavour w s flavour props pa parentIndex).1.1.blockMap
           (s.idGen s.idCounter) =
         some { id := s.idGen s.idCounter, flavour := flavour, ctor := ctor,
                props := props, children := [], childMap := [] })) := by
  refine ⟨?_, ?_, ?_⟩
  · intro hro
    rw [addBlockByFlavour]
    rw [if_neg (by simp [hro])]
    rw [if_pos rfl]
  · intro hro hfl hrule hres hyp hidx hpm hpidne hnone
    exact addBlock_unregistered_eq w s flavour props pa parentIndex pid yp pm
      hro hfl hrule hres hyp hidx hpm hpidne hnone
  · intro hro hfl hrule hres hyp hidx hpm hpidne hidne hctor hsurf htext
    have key := addBlock_success_eq w s flavour props pa parentIndex pid yp pm ctor
      hro hfl hrule hres hyp hidx hpm hpidne hidne hctor hsurf htext
    rw [key]
    refine ⟨rfl, rfl, rfl, rfl, lookupA_setA_self _ _ _, ?_, ?_, lookupA_setA_self _ _ _⟩
    · rw [lookupA_setA_ne _ _ _ _ hpidne, lookupA_setA_self]
    · intro hnone1
      subst hnone1
      rw [lookupA_setA_ne _ _ _ _ hpidne, lookupA_setA_self]
      simp [spliced, insertAt_length_self]

/-- Witness for `C4_addBlock`: adding a paragraph under the example root
with no index returns the generated id `0` and appends it at the end of
the root's replicated children. -/
theorem C4_witness :
    (addBlockByFlavour exWorkspace treePage "affine:paragraph"
        [("text", PropValue.str "new")] (ParentArg.byModel "r") none).1.2 =
      some (treePage.idGen treePage.idCounter) ∧
    lookupA (addBlockByFlavour exWorkspace treePage "affine:paragraph"
        [("text", PropValue.str "new")] (ParentArg.byModel "r") none).1.1.yBlocks "r" =
      some { yRootEx with sysChildren :=
          yRootEx.sysChildren ++ [treePage.idGen treePage.idCounter] } := by
  have h := (C4_addBlock exWorkspace treePage "affine:paragraph"
    [("text", PropValue.str "new")] (ParentArg.byModel "r") none
    "r" yRootEx mRootEx exCtorPara).2.2 rfl (by decide) rfl rfl rfl (by decide)
    rfl (by decide) (by decide) (by decide) (by decide)
    (fun _ => by decide)
  exact ⟨h.2.1, h.2.2.2.2.2.2.1 rfl⟩

/-! ## Claim C3: `deleteBlock` with `bringChildrenTo: parent` -/

/-- Claim C3.  Deleting a block `b` (children `bm.children`, for the
claim's scenario `[c1, c2]`) whose parent `p` has children
`u ++ b :: v` with `b` first occurring after `u`: afterwards `b` is gone
from both the replicated flat map and the typed model cache, the parent's
replicated and model children lists both equal `bm.children ++ (u ++ v)` —
the deleted block's children in their original relative order, prepended
before the parent's remaining pre-existing children — and exactly one
transaction was entered for all the replicated writes.  (The model-side
splice of the parent's children happens before that transaction, as in the
source; the hypotheses require the model and replicated children of `p` to
agree, which reconciliation maintains.) -/
theorem C3_deleteBlock (s : PageState) (bId pid : String) (bm pm : BlockModel)
    (yp : YBlock) (u v : List String)
    (hro : s.readonly = false)
    (hbm : lookupA s.blockMap bId = some bm)
    (hpar : getParent s bId = some pid)
    (hpm : lookupA s.blockMap pid = some pm)
    (hu : pm.children = u ++ bId :: v)
    (hbu : ¬ bId ∈ u)
    (hyy : lookupA s.yBlocks pid = some yp)
    (hsync : yp.sysChildren = pm.children)
    (hpb : ¬ pid = bId) :
    (deleteBlock s bId BringTo.parent).2 = none ∧
    (deleteBlock s bId BringTo.parent).1.txnCount = s.txnCount + 1 ∧
    lookupA (deleteBlock s bId BringTo.parent).1.yBlocks bId = none ∧
    lookupA (deleteBlock s bId BringTo.parent).1.blockMap bId = none ∧
    lookupA (deleteBlock s bId BringTo.parent).1.yBlocks pid =
      some { yp with sysChildren := bm.children ++ (u ++ v) } ∧
    (∃ pmF, lookupA (deleteBlock s bId BringTo.parent).1.blockMap pid = some pmF ∧
      pmF.children = bm.children ++ (u ++ v)) := by
  have hbp : ¬ bId = pid := fun h => hpb h.symm
  have hix : pm.children.findIdx? (fun c => c = bId) = some u.length := by
    rw [hu]
    exact findIdx_first_occ u v bId hbu
  rw [deleteBlock]
  rw [if_neg (by simp [hro])]
  rw [hbm]
  dsimp only
  rw [hpar]
  dsimp only
  rw [hpm]
  dsimp only
  rw [hix]
  dsimp only
  rw [hpm]
  dsimp only
  rw [lookupA_setA_self]
  dsimp only
  rw [show lookupA (deleteKey s.yBlocks bId) pid = some yp from
    (lookupA_deleteKey_ne _ _ _ hpb).trans hyy]
  dsimp only [handleYBlockDelete]
  rw [handleChildrenUpdate_eq _ pid
    { yp with sysChildren := bm.children ++ deleteAt yp.sysChildren u.length }
    { pm with children := bm.children ++ deleteAt pm.children u.length } ?hd1 ?hd2]
  case hd1 => exact lookupA_setA_self _ _ _
  case hd2 =>
    exact (lookupA_deleteKey_ne _ _ _ hpb).trans
      ((lookupA_deleteKey_ne _ _ _ hpb).trans (lookupA_setA_self _ _ _))
  refine ⟨rfl, rfl, ?_, ?_, ?_, ?_⟩
  · exact (lookupA_setA_ne _ _ _ _ hbp).trans (lookupA_deleteKey_self _ _)
  · exact (lookupA_setA_ne _ _ _ _ hbp).trans (lookupA_deleteKey_self _ _)
  · rw [lookupA_setA_self, hsync, hu, deleteAt_first]
  · refine ⟨_, lookupA_setA_self _ _ _, ?_⟩
    dsimp only
    rw [hsync, hu, deleteAt_first]

/-- Witness for `C3_deleteBlock` on the example tree: deleting `b`
(children `[c1, c2]`) under root `r` (children `[b, x, t]`) leaves the
root's replicated children as `[c1, c2, x, t]`. -/
theorem C3_witness :
    lookupA (deleteBlock treePage "b" BringTo.parent).1.yBlocks "r" =
      some { yRootEx with sysChildren := mBEx.children ++ ([] ++ ["x", "t"]) } :=
  (C3_deleteBlock treePage "b" "r" mBEx mRootEx yRootEx [] ["x", "t"]
    rfl rfl rfl rfl rfl (by decide) rfl rfl (by decide)).2.2.2.2.1

/-! ## Claim C9: `moveBlock` -/

/-- Claim C9.  Moving block `b` adjacent to target `t`, where both have
parents: inside one transaction, `b` is removed from its current parent's
replicated children list (which reads `uA ++ b :: vA` with `b` first
occurring after `uA`) and inserted into `t`'s parent's list immediately
before `t` (`top = true`) or immediately after `t` (`top = false`).  The
first conjunct covers the same-parent case, where the target index is
computed against the already-spliced list; the second covers distinct
parents, whose list is untouched by the removal. -/
theorem C9_moveBlock (s : PageState) (bId tId pA pB : String)
    (ypA ypB : YBlock) (uA vA uB vB : List String) (top : Bool)
    (hro : s.readonly = false)
    (hpA : getParent s bId = some pA)
    (hpB : getParent s tId = some pB)
    (hyA : lookupA s.yBlocks pA = some ypA)
    (hA : ypA.sysChildren = uA ++ bId :: vA)
    (hbA : ¬ bId ∈ uA) :
    (pA = pB →
      uA ++ vA = uB ++ tId :: vB →
      ¬ tId ∈ uB →
      (moveBlock s bId tId top).2 = none ∧
      (moveBlock s bId tId top).1.txnCount = s.txnCount + 1 ∧
      lookupA (moveBlock s bId tId top).1.yBlocks pB =
        some { ypA with sysChildren :=
            uB ++ (if top then bId :: tId :: vB else tId :: bId :: vB) }) ∧
    (¬ pA = pB →
      lookupA s.yBlocks pB = some ypB →
      ypB.sysChildren = uB ++ tId :: vB →
      ¬ tId ∈ uB →
      (moveBlock s bId tId top).2 = none ∧
      (moveBlock s bId tId top).1.txnCount = s.txnCount + 1 ∧
      lookupA (moveBlock s bId tId top).1.yBlocks pA =
        some { ypA with sysChildren := uA ++ vA } ∧
      lookupA (moveBlock s bId tId top).1.yBlocks pB =
        some { ypB with sysChildren :=
            uB ++ (if top then bId :: tId :: vB else tId :: bId :: vB) }) := by
  have hixA : ypA.sysChildren.findIdx? (fun c => c = bId) = some uA.length := by
    rw [hA]
    exact findIdx_first_occ uA vA bId hbA
  constructor
  · intro hab hB htB
    subst hab
    have hixB : (deleteAt ypA.sysChildren uA.length).findIdx?
        (fun c => c = tId) = some uB.length := by
      rw [hA, deleteAt_first, hB]
      exact findIdx_first_occ uB vB tId htB
    rw [moveBlock]
    rw [if_neg (by simp [hro])]
    rw [hpA, hpB]
    dsimp only
    rw [hyA]
    dsimp only
    rw [hixA]
    dsimp only
    rw [lookupA_setA_self]
    dsimp only
    rw [hixB]
    dsimp only
    refine ⟨rfl, ?_, ?_⟩
    · rw [handleChildrenUpdate_txnCount, handleChildrenUpdate_txnCount]
    · rw [show ∀ s9 : PageState,
          (handleChildrenUpdate (handleChildrenUpdate s9 pA) pA).yBlocks = s9.yBlocks
        from fun s9 => by rw [handleChildrenUpdate_yBlocks, handleChildrenUpdate_yBlocks]]
      rw [setA_setA_same, lookupA_setA_self]
      cases top
      · rw [hA, deleteAt_first, hB]
        rw [show (if false then uB.length else uB.length + 1) = uB.length + 1 from rfl]
        rw [insertAt_after_first]
        rfl
      · rw [hA, deleteAt_first, hB]
        rw [show (if true then uB.length else uB.length + 1) = uB.length from rfl]
        rw [insertAt_at_first]
        rfl
  · intro hab hyB hB htB
    have hba : ¬ pB = pA := fun h => hab h.symm
    have hixB : ypB.sysChildren.findIdx? (fun c => c = tId) = some uB.length := by
      rw [hB]
      exact findIdx_first_occ uB vB tId htB
    rw [moveBlock]
    rw [if_neg (by simp [hro])]
    rw [hpA, hpB]
    dsimp only
    rw [hyA]
    dsimp only
    rw [hixA]
    dsimp only
    rw [show lookupA (setA s.yBlocks pA
        { ypA with sysChildren := deleteAt ypA.sysChildren uA.length }) pB =
        some ypB from (lookupA_setA_ne _ _ _ _ hba).trans hyB]
    dsimp only
    rw [hixB]
    dsimp only
    refine ⟨rfl, ?_, ?_, ?_⟩
    · rw [handleChildrenUpdate_txnCount, handleChildrenUpdate_txnCount]
    · rw [show ∀ s9 : PageState,
          (handleChildrenUpdate (handleChildrenUpdate s9 pA) pB).yBlocks = s9.yBlocks
        from fun s9 => by rw [handleChildrenUpdate_yBlocks, handleChildrenUpdate_yBlocks]]
      rw [lookupA_setA_ne _ _ _ _ hab, lookupA_setA_self, hA, deleteAt_first]
    · rw [show ∀ s9 : PageState,
          (handleChildrenUpdate (handleChildrenUpdate s9 pA) pB).yBlocks = s9.yBlocks
        from fun s9 => by rw [handleChildrenUpdate_yBlocks, handleChildrenUpdate_yBlocks]]
      rw [lookupA_setA_self]
      cases top
      · rw [hB]
        rw [show (if false then uB.length else uB.length + 1) = uB.length + 1 from rfl]
        rw [insertAt_after_first]
        rfl
      · rw [hB]
        rw [show (if true then uB.length else uB.length + 1) = uB.length from rfl]
        rw [insertAt_at_first]
        rfl

/-- Witness for `C9_moveBlock` on the example tree (same-parent case):
moving `b` to sit immediately after `t` under the shared parent `r` turns
the root's replicated children `[b, x, t]` into `[x, t, b]`. -/
theorem C9_witness :
    lookupA (moveBlock treePage "b" "t" false).1.yBlocks "r" =
      some { yRootEx with sysChildren :=
          ["x"] ++ (if false then "b" :: "t" :: [] else "t" :: "b" :: []) } :=
  ((C9_moveBlock treePage "b" "t" "r" "r" yRootEx yRootEx [] ["x", "t"]
      ["x"] [] false rfl rfl rfl rfl rfl (by decide)).1 rfl rfl (by decide)).2.2

end BlockSuite
